import Mathlib

/-!
Verification of the document store and retrieval/answering pipeline of a
research-assistant backend (`backend/app/db/vector_store.py`,
`backend/app/routers/chat.py`, `backend/app/services/llm_service.py`).

Modelling conventions:
* Python `dict` (string keys, insertion-ordered) is an association list
  `List (String × α)` together with the operations `dictGet?`, `dictSet`,
  `dictDel`, `dictHasKey` below, which reproduce CPython semantics:
  assignment to an existing key keeps its position, assignment to a fresh
  key appends at the end, deletion removes the entry.  A Python dict never
  holds two entries with the same key; states reachable through the store's
  operations keep that invariant.
* `datetime.now().isoformat()` is modelled by a `Nat` clock carried in the
  store state; each call to `now()` reads the clock and advances it, so
  successive readings never decrease (as wall-clock readings never do).
  Where the code embeds the timestamp in a string we use its decimal image.
* JSON-like Python values (summary/metadata dict entries) are the
  inductive `JVal`.  `str(x)` is `pyStr`; the `repr` used by `str` on
  nested containers is `pyRepr`, whose string case reproduces CPython's
  quote choice but not escapes of non-printable characters (no claim
  exercises those).
* Exception handlers in `vector_store.py` guard dict operations that
  cannot raise, so the model has no failure branch there.
-/

/-- JSON-like values as produced by `json.loads` in the Python code.
Numbers are restricted to integers; no claim exercises float values. -/
inductive JVal where
  | str (s : String)
  | int (n : Int)
  | bool (b : Bool)
  | null
  | arr (xs : List JVal)
  | obj (fields : List (String × JVal))
deriving Repr, Inhabited

/-- Lookup in a Python dict: the value at key `k`, if present
(first matching entry of the association list). -/
def dictGet? {α : Type} : List (String × α) → String → Option α
  | [], _ => none
  | (k', v) :: rest, k => if k' = k then some v else dictGet? rest k

/-- Python `d[k] = v` (also the override step of `\x7b**d, k: v\x7d`):
replace the value at `k` keeping its position, or append `(k, v)`. -/
def dictSet {α : Type} : List (String × α) → String → α → List (String × α)
  | [], k, v => [(k, v)]
  | (k', v') :: rest, k, v =>
    if k' = k then (k, v) :: rest else (k', v') :: dictSet rest k v

/-- Python `del d[k]`: remove the entry at `k` (the first one; a Python
dict has at most one). -/
def dictDel {α : Type} : List (String × α) → String → List (String × α)
  | [], _ => []
  | (k', v') :: rest, k => if k' = k then rest else (k', v') :: dictDel rest k

/-- Python `k in d`. -/
def dictHasKey {α : Type} (m : List (String × α)) (k : String) : Bool :=
  (dictGet? m k).isSome

/-- Keys of a dict, in order. -/
def dictKeys {α : Type} (m : List (String × α)) : List String :=
  m.map Prod.fst

/-- A conversation entry: `\x7b"role": role, "content": content,
"timestamp": datetime.now().isoformat()\x7d` with the timestamp modelled
by the clock value. -/
structure Message where
  role : String
  content : String
  timestamp : Nat
deriving Repr, DecidableEq, Inhabited

/-- State of the `VectorStore` singleton: the four sub-maps created in
`VectorStore.__init__`, plus the modelled wall clock. -/
structure VectorStore where
  documents : List (String × String)
  summaries : List (String × List (String × JVal))
  metadata : List (String × List (String × JVal))
  conversations : List (String × List Message)
  clock : Nat
deriving Repr, Inhabited

/-- The freshly initialised store (`VectorStore()` at module import). -/
def emptyStore : VectorStore :=
  { documents := [], summaries := [], metadata := [], conversations := [], clock := 0 }

/-- Decimal image of the clock, standing for the ISO-8601 string of
`datetime.now()`. -/
def isoOf (n : Nat) : String := toString n

namespace VectorStore

/-- `VectorStore.store_document`: writes text, summary, merged metadata
(`\x7b**metadata, "stored_at": now, "document_id": id\x7d`) and an empty
conversation list, then returns `True`.  The `except` branch is
unreachable: plain dict assignments cannot raise. -/
def storeDocument (s : VectorStore) (document_id text : String)
    (summary metadata : List (String × JVal)) : VectorStore × Bool :=
  ({ documents := dictSet s.documents document_id text
     summaries := dictSet s.summaries document_id summary
     metadata := dictSet s.metadata document_id
       (dictSet (dictSet metadata "stored_at" (.str (isoOf s.clock)))
         "document_id" (.str document_id))
     conversations := dictSet s.conversations document_id []
     clock := s.clock + 1 }, true)

/-- The composite view returned by `VectorStore.get_document`. -/
structure DocView where
  document_id : String
  text : String
  summary : Option (List (String × JVal))
  metadata : Option (List (String × JVal))
deriving Repr

/-- `VectorStore.get_document`: `None` when the id is not in
`self.documents`, otherwise the composite view (summary and metadata via
`.get`, hence possibly `None`). -/
def getDocument (s : VectorStore) (document_id : String) : Option DocView :=
  match dictGet? s.documents document_id with
  | none => none
  | some text =>
    some { document_id := document_id, text := text,
           summary := dictGet? s.summaries document_id,
           metadata := dictGet? s.metadata document_id }

/-- `VectorStore.add_conversation_message`: ensure the id has a (possibly
empty) message list, append a message stamped with the current clock, and
return the timestamp. -/
def addConversationMessage (s : VectorStore) (document_id role content : String) :
    VectorStore × Option Nat :=
  let convs :=
    if dictHasKey s.conversations document_id then s.conversations
    else dictSet s.conversations document_id []
  let msg : Message := { role := role, content := content, timestamp := s.clock }
  ({ s with
      conversations :=
        dictSet convs document_id ((dictGet? convs document_id).getD [] ++ [msg])
      clock := s.clock + 1 }, some msg.timestamp)

/-- `VectorStore.get_conversation_history`:
`self.conversations.get(document_id, [])`. -/
def getConversationHistory (s : VectorStore) (document_id : String) : List Message :=
  (dictGet? s.conversations document_id).getD []

/-- `VectorStore.delete_document`: delete the id from each sub-map that
holds it, then return `True` (unconditionally — also when nothing was
removed). -/
def deleteDocument (s : VectorStore) (document_id : String) : VectorStore × Bool :=
  ({ s with
      documents := if dictHasKey s.documents document_id
        then dictDel s.documents document_id else s.documents
      summaries := if dictHasKey s.summaries document_id
        then dictDel s.summaries document_id else s.summaries
      metadata := if dictHasKey s.metadata document_id
        then dictDel s.metadata document_id else s.metadata
      conversations := if dictHasKey s.conversations document_id
        then dictDel s.conversations document_id else s.conversations }, true)

/-- `VectorStore.list_documents`: one metadata record per key of
`self.documents`, with a `\x7b"document_id": id\x7d` placeholder when the
metadata sub-map lacks the id. -/
def listDocuments (s : VectorStore) : List (List (String × JVal)) :=
  s.documents.map (fun p =>
    (dictGet? s.metadata p.1).getD [("document_id", .str p.1)])

/-- `VectorStore.get_document_text`: `self.documents.get(document_id)`. -/
def getDocumentText (s : VectorStore) (document_id : String) : Option String :=
  dictGet? s.documents document_id

/-- `VectorStore.get_document_summary`: `self.summaries.get(document_id)`. -/
def getDocumentSummary (s : VectorStore) (document_id : String) :
    Option (List (String × JVal)) :=
  dictGet? s.summaries document_id

end VectorStore

/-- Python `str.lower()`.  CPython lowercases per Unicode; `Char.toLower`
covers the ASCII range, which is all the claims exercise. -/
def pyLower (s : String) : String := ⟨s.data.map Char.toLower⟩

/-- Accumulator pass behind `pySplitWs`: `cur` holds the characters of
the word being read, in reverse. -/
def pyWordsAux : List Char → List Char → List String
  | cur, [] => if cur.isEmpty then [] else [⟨cur.reverse⟩]
  | cur, c :: rest =>
    if c.isWhitespace then
      if cur.isEmpty then pyWordsAux [] rest else ⟨cur.reverse⟩ :: pyWordsAux [] rest
    else pyWordsAux (c :: cur) rest

/-- Python `str.split()` with no separator: split on whitespace runs,
discarding empty pieces (so the empty or all-blank string yields `[]`). -/
def pySplitWs (s : String) : List String := pyWordsAux [] s.data

/-- Python `s[:200]` on strings: the first `n` characters. -/
def pyTake (s : String) (n : Nat) : String := ⟨s.data.take n⟩

/-- Python `haystack.count(needle)` on character lists: non-overlapping
occurrences, scanning left to right and skipping the length of the needle
after each match.  `fuel` is an upper bound on the remaining scan length,
instantiated with the haystack length. -/
def pyCountGo (pat : List Char) : Nat → List Char → Nat
  | 0, _ => 0
  | _ + 1, [] => 0
  | fuel + 1, c :: rest =>
    if pat.isPrefixOf (c :: rest) then
      1 + pyCountGo pat fuel (rest.drop (pat.length - 1))
    else
      pyCountGo pat fuel rest

/-- Python `haystack.count(needle)` on strings (an empty needle counts
`len + 1` occurrences, as in CPython). -/
def pyCount (haystack needle : String) : Nat :=
  if needle.toList.isEmpty then haystack.toList.length + 1
  else pyCountGo needle.toList haystack.toList.length haystack.toList

/-- Python `l[:n]` for an `int` bound `n`: the first `n` elements when
`n ≥ 0`, everything but the last `|n|` elements when `n < 0`. -/
def pySlice {α : Type} (l : List α) (n : Int) : List α :=
  if 0 ≤ n then l.take n.toNat else l.take (l.length - (-n).toNat)

/-- One entry of the list returned by `VectorStore.search_documents`. -/
structure SearchResult where
  document_id : String
  score : Nat
  snippet : String
deriving Repr, DecidableEq, Inhabited

/-- One insertion step of a stable descending-by-score sort: the new
element goes in front of the first element whose score does not exceed
its own, so earlier elements win ties. -/
def insertDesc (x : SearchResult) : List SearchResult → List SearchResult
  | [] => [x]
  | y :: ys => if y.score ≤ x.score then x :: y :: ys else y :: insertDesc x ys

/-- Python `list.sort(key=lambda r: r["score"], reverse=True)` is a stable
sort by descending score; stable sorts compute a unique function of the
input, here realised as insertion sort. -/
def sortByScoreDesc : List SearchResult → List SearchResult
  | [] => []
  | x :: xs => insertDesc x (sortByScoreDesc xs)

/-- The score loop of `VectorStore.search_documents`: fold over the query
terms, adding each term's occurrence count in the lowered text. -/
def scoreLoop (query_terms : List String) (text_lower : String) : Nat :=
  query_terms.foldl (fun score term => score + pyCount text_lower term) 0

/-- `VectorStore.search_documents`: lower and whitespace-split the query,
score every stored text, keep positive scores with a 200-character snippet
of the original text, sort by score descending (stable), slice to
`top_k`. -/
def VectorStore.searchDocuments (s : VectorStore) (query : String)
    (top_k : Int := 3) : List SearchResult :=
  let query_terms := pySplitWs (pyLower query)
  let results := s.documents.filterMap (fun p =>
    let score := scoreLoop query_terms (pyLower p.2)
    if 0 < score then
      some { document_id := p.1, score := score, snippet := pyTake p.2 200 }
    else none)
  pySlice (sortByScoreDesc results) top_k

/-! Specification-side rendering of the search contract, following the
spec's words rather than the code: score as a sum over terms, then a
stable descending sort expressed by bucketing on each score value from
the maximum down. -/

/-- Spec-side score: the sum over query terms of the term's occurrence
count in the lower-cased text. -/
def specScore (terms : List String) (text : String) : Nat :=
  (terms.map (fun t => pyCount (pyLower text) t)).sum

/-- Largest score present in a result list (0 when empty). -/
def maxScore (l : List SearchResult) : Nat :=
  l.foldr (fun r m => max r.score m) 0

/-- The list `[n, n-1, …, 0]`. -/
def descRange : Nat → List Nat
  | 0 => [0]
  | n + 1 => (n + 1) :: descRange n

/-- Concatenate, for each score value in the given order, the sublist of
`l` carrying that score (in `l`'s own order). -/
def bucketsBy (l : List SearchResult) : List Nat → List SearchResult
  | [] => []
  | v :: vs => l.filter (fun r => r.score = v) ++ bucketsBy l vs

/-- Spec-side stable descending sort: group by score value, highest score
first, each group in input order. -/
def stableSortSpec (l : List SearchResult) : List SearchResult :=
  bucketsBy l (descRange (maxScore l))

/-- The search contract as the spec words it: score every document, keep
the positive scores with their 200-character snippets, order by score
descending with ties in insertion order, and slice to `top_k`. -/
def searchSpec (s : VectorStore) (query : String) (top_k : Int) :
    List SearchResult :=
  let terms := pySplitWs (pyLower query)
  let scored := s.documents.map (fun p =>
    SearchResult.mk p.1 (specScore terms p.2) (pyTake p.2 200))
  pySlice (stableSortSpec (scored.filter (fun r => 0 < r.score))) top_k

/-! The store operations a caller can run, for stating invariants over
every reachable state. -/

/-- One mutating call against the store singleton. -/
inductive StoreOp where
  | store (document_id text : String) (summary metadata : List (String × JVal))
  | delete (document_id : String)
  | append (document_id role content : String)

/-- Run one operation, dropping the returned value. -/
def applyOp (s : VectorStore) : StoreOp → VectorStore
  | .store id t sum m => (s.storeDocument id t sum m).1
  | .delete id => (s.deleteDocument id).1
  | .append id r c => (s.addConversationMessage id r c).1

/-- The state after a sequence of operations against a fresh store. -/
def runOps (ops : List StoreOp) : VectorStore :=
  ops.foldl applyOp emptyStore

/-! The question-answering orchestrator (`ask_question` in
`routers/chat.py`). -/

/-- Outcome of the `/api/chat/ask` handler: a successful answer, or the
HTTP error status it raises. -/
inductive ChatOutcome where
  | ok (answer : String)
  | httpError (code : Nat)
deriving Repr, DecidableEq

/-- `ask_question`: look the document up (404 when absent), call the
answerer, treat a falsy result (`None` or the empty string, Python
`if not answer`) as a 500 without touching the store, and otherwise
append the question and the answer as two conversation messages.
`llmAnswer` stands for the outcome of the awaited external
`LLMService.answer_question` call, which returns the answer string or
`None` when the underlying call raised. -/
def askQuestion (s : VectorStore) (document_id question : String)
    (llmAnswer : Option String) : VectorStore × ChatOutcome :=
  match s.getDocument document_id with
  | none => (s, .httpError 404)
  | some _ =>
    match llmAnswer with
    | none => (s, .httpError 500)
    | some answer =>
      if answer = "" then (s, .httpError 500)
      else
        let s1 := (s.addConversationMessage document_id "user" question).1
        let s2 := (s1.addConversationMessage document_id "assistant" answer).1
        (s2, .ok answer)

/-! Summary normalization (`LLMService._normalize_summary_data`). -/

/-- Python `', '.join(strs)`. -/
def joinComma : List String → String
  | [] => ""
  | [x] => x
  | x :: xs => x ++ ", " ++ joinComma xs

/-- Python `repr` of a string: CPython quotes with `'`, switching to `"`
when the text contains `'` but no `"`, and escapes the backslash and the
chosen quote.  (Escapes of non-printable characters are not modelled; no
claim exercises them.) -/
def pyReprStr (s : String) : String :=
  let quote : Char := if s.data.contains '\'' ∧ ¬ s.data.contains '"' then '"' else '\''
  let escaped := s.data.foldr (fun c acc =>
    if c = '\\' ∨ c = quote then '\\' :: c :: acc else c :: acc) []
  ⟨quote :: escaped ++ [quote]⟩

mutual

/-- Python `str(x)` on a JSON-like value. -/
def pyStr : JVal → String
  | .str s => s
  | .int n => toString n
  | .bool b => if b then "True" else "False"
  | .null => "None"
  | .arr xs => "[" ++ joinComma (pyReprList xs) ++ "]"
  | .obj fs => "\x7b" ++ joinComma (pyReprFields fs) ++ "\x7d"

/-- Python `repr(x)` on a JSON-like value (what `str` applies inside
containers). -/
def pyRepr : JVal → String
  | .str s => pyReprStr s
  | .int n => toString n
  | .bool b => if b then "True" else "False"
  | .null => "None"
  | .arr xs => "[" ++ joinComma (pyReprList xs) ++ "]"
  | .obj fs => "\x7b" ++ joinComma (pyReprFields fs) ++ "\x7d"

/-- `repr` of each element of a list. -/
def pyReprList : List JVal → List String
  | [] => []
  | x :: xs => pyRepr x :: pyReprList xs

/-- `repr(k): repr(v)` for each entry of a dict. -/
def pyReprFields : List (String × JVal) → List String
  | [] => []
  | (k, v) :: fs => (pyReprStr k ++ ": " ++ pyRepr v) :: pyReprFields fs

end

/-- Python truthiness of a JSON-like value, as tested by
`str(value) if value else ""`. -/
def pyTruthy : JVal → Bool
  | .str s => s ≠ ""
  | .int n => n ≠ 0
  | .bool b => b
  | .null => false
  | .arr xs => ¬ xs.isEmpty
  | .obj fs => ¬ fs.isEmpty

/-- One value of `LLMService._normalize_summary_data`'s loop: lists are
comma-joined over `str` of the elements, dicts become their `str` image,
strings stay, and anything else becomes `str(value)` when truthy and the
empty string otherwise. -/
def normalizeValue (v : JVal) : JVal :=
  match v with
  | .arr xs => .str (joinComma (xs.map pyStr))
  | .obj fs => .str (pyStr (.obj fs))
  | .str s => .str s
  | v => .str (if pyTruthy v then pyStr v else "")

/-- `LLMService._normalize_summary_data`: rebuild the dict with every
value normalized (iteration in entry order; a Python dict holds each key
once, so rebuilding is entrywise). -/
def normalizeSummaryData (data : List (String × JVal)) : List (String × JVal) :=
  data.map (fun p => (p.1, normalizeValue p.2))

/-- Invariant of every store state reachable through the public mutating
operations: each sub-map is duplicate-free (as every Python dict is), the
text/summary/metadata sub-maps share their key set, the conversation
sub-map holds at least those keys, and each ledger is non-decreasing in
timestamps, all of them at most the clock. -/
structure StoreInv (s : VectorStore) : Prop where
  docsNodup : (dictKeys s.documents).Nodup
  sumsNodup : (dictKeys s.summaries).Nodup
  metaNodup : (dictKeys s.metadata).Nodup
  convNodup : (dictKeys s.conversations).Nodup
  docSum : ∀ id, dictHasKey s.documents id = dictHasKey s.summaries id
  docMeta : ∀ id, dictHasKey s.documents id = dictHasKey s.metadata id
  docConv : ∀ id, dictHasKey s.documents id = false ∨
    dictHasKey s.conversations id = true
  sorted : ∀ id, (s.getConversationHistory id).Pairwise
    (fun m1 m2 => m1.timestamp ≤ m2.timestamp)
  bounded : ∀ id, ∀ m ∈ s.getConversationHistory id, m.timestamp ≤ s.clock

/-- A store holding the two documents of the spec's search example. -/
def demoStore : VectorStore :=
  ((emptyStore.storeDocument "d1" "cats are great" [] []).1.storeDocument
    "d2" "dogs and cats" [] []).1

/-- A hand-built partial state: a text without summary/metadata, and a
conversation entry without any document. -/
def partialStore : VectorStore :=
  { documents := [("d", "T")], summaries := [], metadata := [],
    conversations := [("e", [])], clock := 5 }

/-! Supporting lemmas about the dict model. -/

theorem dictGet?_dictSet_self {α : Type} (m : List (String × α)) (k : String) (v : α) :
    dictGet? (dictSet m k v) k = some v := by
  induction m with
  | nil => simp [dictSet, dictGet?]
  | cons p rest ih =>
    obtain ⟨k', v'⟩ := p
    by_cases h : k' = k
    · simp [dictSet, h, dictGet?]
    · simp [dictSet, h, dictGet?, ih]

theorem dictGet?_dictSet_ne {α : Type} (m : List (String × α)) (k k' : String) (v : α)
    (h : k' ≠ k) : dictGet? (dictSet m k v) k' = dictGet? m k' := by
  induction m with
  | nil => simp [dictSet, dictGet?, h.symm]
  | cons p rest ih =>
    obtain ⟨k₁, v₁⟩ := p
    by_cases h1 : k₁ = k
    · subst h1
      have h3 : ¬ (k₁ = k') := fun hh => h hh.symm
      simp [dictSet, dictGet?, h3]
    · by_cases h2 : k₁ = k'
      · simp [dictSet, h1, dictGet?, h2, h]
      · simp [dictSet, h1, dictGet?, h2, ih]

theorem dictGet?_dictDel_ne {α : Type} (m : List (String × α)) (k k' : String)
    (h : k' ≠ k) : dictGet? (dictDel m k) k' = dictGet? m k' := by
  induction m with
  | nil => simp [dictDel]
  | cons p rest ih =>
    obtain ⟨k₁, v₁⟩ := p
    by_cases h1 : k₁ = k
    · subst h1
      have h3 : ¬ (k₁ = k') := fun hh => h hh.symm
      simp [dictDel, dictGet?, h3]
    · by_cases h2 : k₁ = k'
      · simp [dictDel, h1, dictGet?, h2, h]
      · simp [dictDel, h1, dictGet?, h2, ih]

theorem mem_dictKeys_iff {α : Type} (m : List (String × α)) (k : String) :
    k ∈ dictKeys m ↔ dictHasKey m k = true := by
  induction m with
  | nil => simp [dictKeys, dictHasKey, dictGet?]
  | cons p rest ih =>
    obtain ⟨k₁, v₁⟩ := p
    simp only [dictKeys, dictHasKey] at ih ⊢
    by_cases h1 : k₁ = k
    · simp [dictGet?, h1]
    · have h2 : ¬ k = k₁ := fun hh => h1 hh.symm
      simp [dictGet?, h1, h2, ih]

theorem dictGet?_eq_none_of_not_mem {α : Type} (m : List (String × α)) (k : String)
    (h : k ∉ dictKeys m) : dictGet? m k = none := by
  cases hg : dictGet? m k with
  | none => rfl
  | some v => exact absurd ((mem_dictKeys_iff m k).mpr (by simp [dictHasKey, hg])) h

theorem dictGet?_dictDel_self {α : Type} (m : List (String × α)) (k : String)
    (hnd : (dictKeys m).Nodup) : dictGet? (dictDel m k) k = none := by
  induction m with
  | nil => simp [dictDel, dictGet?]
  | cons p rest ih =>
    obtain ⟨k₁, v₁⟩ := p
    simp only [dictKeys, List.map_cons, List.nodup_cons] at hnd
    by_cases h1 : k₁ = k
    · subst h1
      simpa [dictDel] using dictGet?_eq_none_of_not_mem rest k₁ hnd.1
    · simp [dictDel, h1, dictGet?, ih hnd.2]

theorem dictKeys_dictSet_of_hasKey {α : Type} (m : List (String × α)) (k : String) (v : α)
    (h : dictHasKey m k = true) : dictKeys (dictSet m k v) = dictKeys m := by
  induction m with
  | nil => simp [dictHasKey, dictGet?] at h
  | cons p rest ih =>
    obtain ⟨k₁, v₁⟩ := p
    by_cases h1 : k₁ = k
    · simp [dictSet, h1, dictKeys]
    · simp only [dictHasKey, dictGet?, h1, if_false] at h
      have hr := ih h
      simp only [dictKeys] at hr
      simp [dictSet, h1, dictKeys, hr]

theorem dictKeys_dictSet_of_not_hasKey {α : Type} (m : List (String × α)) (k : String) (v : α)
    (h : dictHasKey m k = false) : dictKeys (dictSet m k v) = dictKeys m ++ [k] := by
  induction m with
  | nil => simp [dictSet, dictKeys]
  | cons p rest ih =>
    obtain ⟨k₁, v₁⟩ := p
    by_cases h1 : k₁ = k
    · simp [dictHasKey, dictGet?, h1] at h
    · simp only [dictHasKey, dictGet?, h1, if_false] at h
      have hr := ih h
      simp only [dictKeys] at hr
      simp [dictSet, h1, dictKeys, hr]

theorem dictKeys_dictDel_sublist {α : Type} (m : List (String × α)) (k : String) :
    (dictKeys (dictDel m k)).Sublist (dictKeys m) := by
  induction m with
  | nil => simp [dictDel]
  | cons p rest ih =>
    obtain ⟨k₁, v₁⟩ := p
    by_cases h1 : k₁ = k
    · simp only [dictDel, h1, if_true, dictKeys, List.map_cons]
      exact List.sublist_cons_self _ _
    · simpa only [dictDel, h1, if_false, dictKeys, List.map_cons] using ih.cons₂ k₁

theorem nodup_dictKeys_dictSet {α : Type} (m : List (String × α)) (k : String) (v : α)
    (h : (dictKeys m).Nodup) : (dictKeys (dictSet m k v)).Nodup := by
  by_cases hk : dictHasKey m k = true
  · rw [dictKeys_dictSet_of_hasKey m k v hk]
    exact h
  · rw [dictKeys_dictSet_of_not_hasKey m k v (by simpa using hk)]
    have : k ∉ dictKeys m := fun hm => hk ((mem_dictKeys_iff m k).mp hm)
    simp [List.nodup_append, h, this]

theorem nodup_dictKeys_dictDel {α : Type} (m : List (String × α)) (k : String)
    (h : (dictKeys m).Nodup) : (dictKeys (dictDel m k)).Nodup :=
  (dictKeys_dictDel_sublist m k).nodup h

theorem dictHasKey_dictSet_self {α : Type} (m : List (String × α)) (k : String) (v : α) :
    dictHasKey (dictSet m k v) k = true := by
  simp [dictHasKey, dictGet?_dictSet_self]

theorem dictHasKey_dictSet_ne {α : Type} (m : List (String × α)) (k k' : String) (v : α)
    (h : k' ≠ k) : dictHasKey (dictSet m k v) k' = dictHasKey m k' := by
  simp [dictHasKey, dictGet?_dictSet_ne m k k' v h]

theorem dictHasKey_dictDel_ne {α : Type} (m : List (String × α)) (k k' : String)
    (h : k' ≠ k) : dictHasKey (dictDel m k) k' = dictHasKey m k' := by
  simp [dictHasKey, dictGet?_dictDel_ne m k k' h]

theorem dictHasKey_dictDel_self {α : Type} (m : List (String × α)) (k : String)
    (hnd : (dictKeys m).Nodup) : dictHasKey (dictDel m k) k = false := by
  simp [dictHasKey, dictGet?_dictDel_self m k hnd]

theorem dictGet?_eq_none_of_hasKey_false {α : Type} (m : List (String × α)) (k : String)
    (h : dictHasKey m k = false) : dictGet? m k = none := by
  cases hg : dictGet? m k with
  | none => rfl
  | some v => simp [dictHasKey, hg] at h

/-! Supporting lemmas about the store operations. -/

theorem conv_addMsg_self (s : VectorStore) (id r c : String) :
    ((s.addConversationMessage id r c).1).getConversationHistory id
      = s.getConversationHistory id ++ [⟨r, c, s.clock⟩] := by
  unfold VectorStore.addConversationMessage VectorStore.getConversationHistory
  by_cases h : dictHasKey s.conversations id
  · simp [h, dictGet?_dictSet_self]
  · simp [h, dictGet?_dictSet_self,
      dictGet?_eq_none_of_hasKey_false s.conversations id (by simpa using h)]

theorem conv_addMsg_other (s : VectorStore) (id id' r c : String) (h : id' ≠ id) :
    ((s.addConversationMessage id r c).1).getConversationHistory id'
      = s.getConversationHistory id' := by
  unfold VectorStore.addConversationMessage VectorStore.getConversationHistory
  by_cases hk : dictHasKey s.conversations id
  · simp [hk, dictGet?_dictSet_ne _ _ _ _ h]
  · simp [hk, dictGet?_dictSet_ne _ _ _ _ h]

theorem clock_addMsg (s : VectorStore) (id r c : String) :
    ((s.addConversationMessage id r c).1).clock = s.clock + 1 := rfl

theorem conv_store_self (s : VectorStore) (id t : String)
    (sum m : List (String × JVal)) :
    ((s.storeDocument id t sum m).1).getConversationHistory id = [] := by
  simp [VectorStore.storeDocument, VectorStore.getConversationHistory,
    dictGet?_dictSet_self]

theorem conv_store_other (s : VectorStore) (id id' t : String)
    (sum m : List (String × JVal)) (h : id' ≠ id) :
    ((s.storeDocument id t sum m).1).getConversationHistory id'
      = s.getConversationHistory id' := by
  simp [VectorStore.storeDocument, VectorStore.getConversationHistory,
    dictGet?_dictSet_ne _ _ _ _ h]

theorem conv_delete_self (s : VectorStore) (id : String)
    (hnd : (dictKeys s.conversations).Nodup) :
    ((s.deleteDocument id).1).getConversationHistory id = [] := by
  unfold VectorStore.deleteDocument VectorStore.getConversationHistory
  by_cases h : dictHasKey s.conversations id
  · simp [h, dictGet?_dictDel_self s.conversations id hnd]
  · simp [h, dictGet?_eq_none_of_hasKey_false s.conversations id (by simpa using h)]

theorem conv_delete_other (s : VectorStore) (id id' : String) (h : id' ≠ id) :
    ((s.deleteDocument id).1).getConversationHistory id'
      = s.getConversationHistory id' := by
  unfold VectorStore.deleteDocument VectorStore.getConversationHistory
  by_cases hk : dictHasKey s.conversations id
  · simp [hk, dictGet?_dictDel_ne _ _ _ h]
  · simp [hk]

theorem dictHasKey_condDel_self {α : Type} (m : List (String × α)) (k : String)
    (hnd : (dictKeys m).Nodup) :
    dictHasKey (if dictHasKey m k then dictDel m k else m) k = false := by
  by_cases h : dictHasKey m k
  · simp only [h, if_true]
    exact dictHasKey_dictDel_self m k hnd
  · simp only [h, if_false]
    simpa using h

theorem dictHasKey_condDel_ne {α : Type} (m : List (String × α)) (k k' : String)
    (h : k' ≠ k) :
    dictHasKey (if dictHasKey m k then dictDel m k else m) k' = dictHasKey m k' := by
  by_cases hk : dictHasKey m k <;>
    simp [hk, dictHasKey_dictDel_ne m k k' h]

theorem nodup_dictKeys_condDel {α : Type} (m : List (String × α)) (k : String)
    (hnd : (dictKeys m).Nodup) :
    (dictKeys (if dictHasKey m k then dictDel m k else m)).Nodup := by
  by_cases hk : dictHasKey m k <;> simp [hk, nodup_dictKeys_dictDel m k hnd, hnd]

theorem storeInv_empty : StoreInv emptyStore := by
  refine ⟨?_, ?_, ?_, ?_, ?_, ?_, ?_, ?_, ?_⟩ <;>
    simp [emptyStore, dictKeys, dictHasKey, dictGet?, VectorStore.getConversationHistory]

theorem storeInv_store (s : VectorStore) (id t : String) (sum m : List (String × JVal))
    (h : StoreInv s) : StoreInv ((s.storeDocument id t sum m).1) := by
  refine ⟨?_, ?_, ?_, ?_, ?_, ?_, ?_, ?_, ?_⟩
  · exact nodup_dictKeys_dictSet _ _ _ h.docsNodup
  · exact nodup_dictKeys_dictSet _ _ _ h.sumsNodup
  · exact nodup_dictKeys_dictSet _ _ _ h.metaNodup
  · exact nodup_dictKeys_dictSet _ _ _ h.convNodup
  · intro id'
    by_cases hi : id' = id
    · subst hi
      simp [VectorStore.storeDocument, dictHasKey_dictSet_self]
    · simpa [VectorStore.storeDocument, dictHasKey_dictSet_ne _ _ _ _ hi]
        using h.docSum id'
  · intro id'
    by_cases hi : id' = id
    · subst hi
      simp [VectorStore.storeDocument, dictHasKey_dictSet_self]
    · simpa [VectorStore.storeDocument, dictHasKey_dictSet_ne _ _ _ _ hi]
        using h.docMeta id'
  · intro id'
    by_cases hi : id' = id
    · subst hi
      right
      simp [VectorStore.storeDocument, dictHasKey_dictSet_self]
    · rcases h.docConv id' with hl | hr
      · left
        simpa [VectorStore.storeDocument, dictHasKey_dictSet_ne _ _ _ _ hi] using hl
      · right
        simpa [VectorStore.storeDocument, dictHasKey_dictSet_ne _ _ _ _ hi] using hr
  · intro id'
    by_cases hi : id' = id
    · subst hi
      rw [conv_store_self]
      exact List.Pairwise.nil
    · rw [conv_store_other _ _ _ _ _ _ hi]
      exact h.sorted id'
  · intro id' mm hm
    by_cases hi : id' = id
    · subst hi
      rw [conv_store_self] at hm
      simp at hm
    · rw [conv_store_other _ _ _ _ _ _ hi] at hm
      exact le_trans (h.bounded id' mm hm) (by simp [VectorStore.storeDocument])

theorem storeInv_delete (s : VectorStore) (id : String)
    (h : StoreInv s) : StoreInv ((s.deleteDocument id).1) := by
  refine ⟨?_, ?_, ?_, ?_, ?_, ?_, ?_, ?_, ?_⟩
  · exact nodup_dictKeys_condDel _ _ h.docsNodup
  · exact nodup_dictKeys_condDel _ _ h.sumsNodup
  · exact nodup_dictKeys_condDel _ _ h.metaNodup
  · exact nodup_dictKeys_condDel _ _ h.convNodup
  · intro id'
    simp only [VectorStore.deleteDocument]
    by_cases hi : id' = id
    · subst hi
      rw [dictHasKey_condDel_self _ _ h.docsNodup,
        dictHasKey_condDel_self _ _ h.sumsNodup]
    · rw [dictHasKey_condDel_ne _ _ _ hi, dictHasKey_condDel_ne _ _ _ hi]
      exact h.docSum id'
  · intro id'
    simp only [VectorStore.deleteDocument]
    by_cases hi : id' = id
    · subst hi
      rw [dictHasKey_condDel_self _ _ h.docsNodup,
        dictHasKey_condDel_self _ _ h.metaNodup]
    · rw [dictHasKey_condDel_ne _ _ _ hi, dictHasKey_condDel_ne _ _ _ hi]
      exact h.docMeta id'
  · intro id'
    simp only [VectorStore.deleteDocument]
    by_cases hi : id' = id
    · subst hi
      left
      exact dictHasKey_condDel_self _ _ h.docsNodup
    · rcases h.docConv id' with hl | hr
      · left
        rw [dictHasKey_condDel_ne _ _ _ hi]
        exact hl
      · right
        rw [dictHasKey_condDel_ne _ _ _ hi]
        exact hr
  · intro id'
    by_cases hi : id' = id
    · subst hi
      rw [conv_delete_self _ _ h.convNodup]
      exact List.Pairwise.nil
    · rw [conv_delete_other _ _ _ hi]
      exact h.sorted id'
  · intro id' mm hm
    by_cases hi : id' = id
    · subst hi
      rw [conv_delete_self _ _ h.convNodup] at hm
      simp at hm
    · rw [conv_delete_other _ _ _ hi] at hm
      exact h.bounded id' mm hm

theorem storeInv_append (s : VectorStore) (id r c : String)
    (h : StoreInv s) : StoreInv ((s.addConversationMessage id r c).1) := by
  have hconv : ∀ id', dictHasKey ((s.addConversationMessage id r c).1).conversations id'
      = (if id' = id then true else dictHasKey s.conversations id') := by
    intro id'
    by_cases hi : id' = id
    · subst hi
      by_cases hk : dictHasKey s.conversations id' <;>
        simp [VectorStore.addConversationMessage, hk, dictHasKey_dictSet_self]
    · by_cases hk : dictHasKey s.conversations id <;>
        simp [VectorStore.addConversationMessage, hk, hi,
          dictHasKey_dictSet_ne _ _ _ _ hi]
  refine ⟨h.docsNodup, h.sumsNodup, h.metaNodup, ?_, h.docSum, h.docMeta, ?_, ?_, ?_⟩
  · by_cases hk : dictHasKey s.conversations id
    · simpa [VectorStore.addConversationMessage, hk] using
        nodup_dictKeys_dictSet _ id _ h.convNodup
    · simpa [VectorStore.addConversationMessage, hk] using
        nodup_dictKeys_dictSet _ id _ (nodup_dictKeys_dictSet _ id ([] : List Message) h.convNodup)
  · intro id'
    by_cases hi : id' = id
    · subst hi
      right
      simp [hconv id']
    · rcases h.docConv id' with hl | hr
      · left
        exact hl
      · right
        simp [hconv id', hi, hr]
  · intro id'
    by_cases hi : id' = id
    · subst hi
      rw [conv_addMsg_self]
      rw [List.pairwise_append]
      refine ⟨h.sorted id', List.pairwise_singleton _ _, ?_⟩
      intro a ha b hb
      simp only [List.mem_singleton] at hb
      subst hb
      exact h.bounded id' a ha
    · rw [conv_addMsg_other _ _ _ _ _ hi]
      exact h.sorted id'
  · intro id' mm hm
    rw [clock_addMsg]
    by_cases hi : id' = id
    · subst hi
      rw [conv_addMsg_self] at hm
      rcases List.mem_append.mp hm with hl | hr
      · exact le_trans (h.bounded id' mm hl) (Nat.le_succ _)
      · simp only [List.mem_singleton] at hr
        subst hr
        exact Nat.le_succ _
    · rw [conv_addMsg_other _ _ _ _ _ hi] at hm
      exact le_trans (h.bounded id' mm hm) (Nat.le_succ _)

theorem storeInv_applyOp (s : VectorStore) (op : StoreOp)
    (h : StoreInv s) : StoreInv (applyOp s op) := by
  cases op with
  | store id t sum m => exact storeInv_store s id t sum m h
  | delete id => exact storeInv_delete s id h
  | append id r c => exact storeInv_append s id r c h

theorem storeInv_foldl (ops : List StoreOp) (s : VectorStore)
    (h : StoreInv s) : StoreInv (ops.foldl applyOp s) := by
  induction ops generalizing s with
  | nil => exact h
  | cons op rest ih => exact ih _ (storeInv_applyOp s op h)

theorem storeInv_runOps (ops : List StoreOp) : StoreInv (runOps ops) :=
  storeInv_foldl ops emptyStore storeInv_empty

/-! Supporting lemmas for the search contract. -/

theorem foldl_add_count (t : String) (terms : List String) (acc : Nat) :
    terms.foldl (fun a x => a + pyCount t x) acc
      = acc + (terms.map (fun x => pyCount t x)).sum := by
  induction terms generalizing acc with
  | nil => simp
  | cons x rest ih => simp [ih, Nat.add_assoc]

theorem scoreLoop_eq_specScore (terms : List String) (text : String) :
    scoreLoop terms (pyLower text) = specScore terms text := by
  simp [scoreLoop, specScore, foldl_add_count]

theorem filterMap_score (terms : List String) (l : List (String × String)) :
    l.filterMap (fun p => if 0 < specScore terms p.2
      then some (SearchResult.mk p.1 (specScore terms p.2) (pyTake p.2 200))
      else none)
    = (l.map (fun p =>
        SearchResult.mk p.1 (specScore terms p.2) (pyTake p.2 200))).filter
        (fun r => 0 < r.score) := by
  induction l with
  | nil => rfl
  | cons p rest ih =>
    by_cases h : 0 < specScore terms p.2 <;> simp [List.filter_cons, h, ih]

theorem le_maxScore (l : List SearchResult) : ∀ r ∈ l, r.score ≤ maxScore l := by
  induction l with
  | nil => simp
  | cons x xs ih =>
    intro r hr
    rcases List.mem_cons.mp hr with h | h
    · subst h
      simp [maxScore]
    · exact le_trans (ih r h) (by simp [maxScore])

theorem bucketsBy_nil (vs : List Nat) : bucketsBy [] vs = [] := by
  induction vs with
  | nil => rfl
  | cons v rest ih => simp [bucketsBy, ih]

theorem bucketsBy_append_vals (l : List SearchResult) (vs1 vs2 : List Nat) :
    bucketsBy l (vs1 ++ vs2) = bucketsBy l vs1 ++ bucketsBy l vs2 := by
  induction vs1 with
  | nil => rfl
  | cons v rest ih => simp [bucketsBy, ih]

theorem mem_bucketsBy (l : List SearchResult) (vs : List Nat) (y : SearchResult)
    (hy : y ∈ bucketsBy l vs) : y ∈ l ∧ y.score ∈ vs := by
  induction vs with
  | nil => simp [bucketsBy] at hy
  | cons v rest ih =>
    rcases List.mem_append.mp hy with h | h
    · have := List.mem_filter.mp h
      refine ⟨this.1, ?_⟩
      have : y.score = v := by simpa using this.2
      simp [this]
    · obtain ⟨h1, h2⟩ := ih h
      exact ⟨h1, by simp [h2]⟩

theorem mem_descRange (n w : Nat) : w ∈ descRange n ↔ w ≤ n := by
  induction n with
  | zero => simp [descRange, Nat.le_zero]
  | succ n ih =>
    simp only [descRange, List.mem_cons, ih]
    omega

theorem descRange_split (v M : Nat) (h : v ≤ M) :
    ∃ u, descRange M = u ++ descRange v ∧ ∀ w ∈ u, v < w := by
  induction M with
  | zero =>
    have hv : v = 0 := Nat.le_zero.mp h
    exact ⟨[], by simp [hv], by simp⟩
  | succ M ih =>
    by_cases hv : v = M + 1
    · exact ⟨[], by simp [hv], by simp⟩
    · obtain ⟨u, hu, hw⟩ := ih (by omega)
      refine ⟨(M + 1) :: u, by simp [descRange, hu], ?_⟩
      intro w hwmem
      rcases List.mem_cons.mp hwmem with h1 | h1
      · omega
      · exact hw w h1

theorem insertDesc_append (x : SearchResult) (l1 l2 : List SearchResult)
    (h : ∀ y ∈ l1, x.score < y.score) :
    insertDesc x (l1 ++ l2) = l1 ++ insertDesc x l2 := by
  induction l1 with
  | nil => rfl
  | cons a rest ih =>
    have ha : ¬ (a.score ≤ x.score) :=
      Nat.not_le.mpr (h a (List.mem_cons_self a rest))
    simp [insertDesc, ha, ih (fun y hy => h y (List.mem_cons_of_mem a hy))]

theorem insertDesc_front (x : SearchResult) (l : List SearchResult)
    (h : ∀ y ∈ l, y.score ≤ x.score) :
    insertDesc x l = x :: l := by
  cases l with
  | nil => rfl
  | cons a rest => simp [insertDesc, h a (List.mem_cons_self a rest)]

theorem bucketsBy_cons_not (x : SearchResult) (xs : List SearchResult)
    (vs : List Nat) (h : ∀ w ∈ vs, ¬ x.score = w) :
    bucketsBy (x :: xs) vs = bucketsBy xs vs := by
  induction vs with
  | nil => rfl
  | cons v rest ih =>
    simp only [bucketsBy, List.filter_cons]
    rw [if_neg (by simpa using h v (List.mem_cons_self v rest))]
    rw [ih (fun w hw => h w (List.mem_cons_of_mem v hw))]

theorem bucketsBy_cons_descRange (x : SearchResult) (xs : List SearchResult) :
    bucketsBy (x :: xs) (descRange x.score) = x :: bucketsBy xs (descRange x.score) := by
  cases hv : x.score with
  | zero =>
    simp only [descRange, bucketsBy, List.filter_cons]
    rw [if_pos (by simp [hv])]
    simp [bucketsBy_nil]
  | succ n =>
    have hrest : ∀ w ∈ descRange n, ¬ x.score = w := by
      intro w hw
      have := (mem_descRange n w).mp hw
      omega
    simp only [descRange, bucketsBy, List.filter_cons]
    rw [if_pos (by simp [hv])]
    rw [bucketsBy_cons_not x xs _ hrest]
    simp

theorem sortDesc_eq_bucketsBy (l : List SearchResult) (M : Nat)
    (hM : ∀ r ∈ l, r.score ≤ M) :
    sortByScoreDesc l = bucketsBy l (descRange M) := by
  induction l with
  | nil => simp [sortByScoreDesc, bucketsBy_nil]
  | cons x xs ih =>
    have hx : x.score ≤ M := hM x (List.mem_cons_self x xs)
    obtain ⟨u, hu, hw⟩ := descRange_split x.score M hx
    have ihx := ih (fun r hr => hM r (List.mem_cons_of_mem x hr))
    rw [sortByScoreDesc, ihx, hu, bucketsBy_append_vals,
      insertDesc_append x _ _ (fun y hy => hw _ (mem_bucketsBy _ _ _ hy).2),
      insertDesc_front x _
        (fun y hy => (mem_descRange _ _).mp (mem_bucketsBy _ _ _ hy).2),
      bucketsBy_append_vals,
      bucketsBy_cons_not x xs u (fun w hwu => Nat.ne_of_lt (hw w hwu)),
      bucketsBy_cons_descRange]

theorem stableSortSpec_eq (l : List SearchResult) :
    sortByScoreDesc l = stableSortSpec l :=
  sortDesc_eq_bucketsBy l (maxScore l) (le_maxScore l)

theorem pySlice_length_le {α : Type} (l : List α) (k : Int) (hk : 0 ≤ k) :
    (pySlice l k).length ≤ k.toNat := by
  simp only [pySlice, if_pos hk]
  simp

theorem pySlice_nil {α : Type} (k : Int) : pySlice ([] : List α) k = [] := by
  simp [pySlice]

theorem pySlice_zero {α : Type} (l : List α) : pySlice l 0 = [] := by
  simp [pySlice]

theorem searchDocuments_def (s : VectorStore) (q : String) (k : Int) :
    s.searchDocuments q k
      = pySlice (sortByScoreDesc (s.documents.filterMap (fun p =>
          if 0 < scoreLoop (pySplitWs (pyLower q)) (pyLower p.2) then
            some (SearchResult.mk p.1
              (scoreLoop (pySplitWs (pyLower q)) (pyLower p.2)) (pyTake p.2 200))
          else none))) k := rfl

theorem searchSpec_def (s : VectorStore) (q : String) (k : Int) :
    searchSpec s q k
      = pySlice (stableSortSpec ((s.documents.map (fun p =>
          SearchResult.mk p.1 (specScore (pySplitWs (pyLower q)) p.2)
            (pyTake p.2 200))).filter (fun r => 0 < r.score))) k := rfl

theorem searchDocuments_eq_nil (s : VectorStore) (q : String) (k : Int)
    (h : ∀ p ∈ s.documents, scoreLoop (pySplitWs (pyLower q)) (pyLower p.2) = 0) :
    s.searchDocuments q k = [] := by
  rw [searchDocuments_def]
  have hfm : (s.documents.filterMap (fun p =>
      if 0 < scoreLoop (pySplitWs (pyLower q)) (pyLower p.2) then
        some (SearchResult.mk p.1
          (scoreLoop (pySplitWs (pyLower q)) (pyLower p.2)) (pyTake p.2 200))
      else none)) = [] := by
    refine List.filterMap_eq_nil_iff.mpr ?_
    intro p hp
    simp [h p hp]
  rw [hfm]
  exact pySlice_nil k

theorem dictGet?_map_value {α β : Type} (f : α → β) (m : List (String × α))
    (k : String) :
    dictGet? (m.map (fun p => (p.1, f p.2))) k = (dictGet? m k).map f := by
  induction m with
  | nil => rfl
  | cons p rest ih =>
    obtain ⟨k₁, v₁⟩ := p
    by_cases h : k₁ = k <;> simp [dictGet?, h, ih]

theorem normalizeValue_is_str (v : JVal) : ∃ sv, normalizeValue v = JVal.str sv := by
  cases v <;> exact ⟨_, rfl⟩

/-! The claims. -/

/-- C1 fails as stated: `add_conversation_message` on an id that was never
stored creates the id in the conversation sub-map alone, so after the
operation sequence `[append "d" "user" "q"]` the id `"d"` is in the
conversation sub-map but not in the text sub-map. -/
theorem C1_counterexample :
    dictHasKey (runOps [.append "d" "user" "q"]).conversations "d" = true
    ∧ dictHasKey (runOps [.append "d" "user" "q"]).documents "d" = false :=
  ⟨rfl, rfl⟩

/-- C1 (amended): for every sequence of store, delete, and append_message
operations and every id, the text, summary, and metadata sub-maps contain
the id together or not at all; the conversation sub-map contains at least
every id the text sub-map has, but `append_message` on an unknown id can
create a conversation entry with no corresponding record in the other
three sub-maps. -/
theorem C1_amended_submap_consistency (ops : List StoreOp) (id : String) :
    dictHasKey (runOps ops).documents id = dictHasKey (runOps ops).summaries id
    ∧ dictHasKey (runOps ops).documents id = dictHasKey (runOps ops).metadata id
    ∧ (dictHasKey (runOps ops).documents id = false
        ∨ dictHasKey (runOps ops).conversations id = true) :=
  ⟨(storeInv_runOps ops).docSum id, (storeInv_runOps ops).docMeta id,
    (storeInv_runOps ops).docConv id⟩

/-- C2: the code contradicts the claim (and the delete route's own
not-found check): `delete_document` returns `True` even for an id absent
from every sub-map, where the claim says it reports whether anything was
removed; the get-after-delete half does hold. -/
theorem C2_delete_returns_true_on_absent :
    (VectorStore.deleteDocument emptyStore "missing").2 = true
    ∧ VectorStore.getDocument
        (VectorStore.deleteDocument emptyStore "missing").1 "missing" = none :=
  ⟨rfl, rfl⟩

/-- C3: after `store(id, T, S, M)` succeeds, `get(id)` returns the record
with text `T`, summary `S`, and metadata `M` extended with the
`stored_at` timestamp and `document_id = id`, and the document's
conversation ledger is empty. -/
theorem C3_store_then_get (s : VectorStore) (id t : String)
    (sum m : List (String × JVal)) :
    (s.storeDocument id t sum m).2 = true
    ∧ ((s.storeDocument id t sum m).1).getDocument id
      = some ⟨id, t, some sum,
          some (dictSet (dictSet m "stored_at" (.str (isoOf s.clock)))
            "document_id" (.str id))⟩
    ∧ ((s.storeDocument id t sum m).1).getConversationHistory id = [] := by
  refine ⟨rfl, ?_, conv_store_self s id t sum m⟩
  simp [VectorStore.storeDocument, VectorStore.getDocument, dictGet?_dictSet_self]

/-- C4: `search(query, top_k)` computes exactly the spec's contract —
sum-of-substring-count scores over whitespace-split lower-cased terms,
zero scores discarded, stable descending sort with ties in insertion
order, at most `top_k` results, snippets the first 200 characters of the
original text. -/
theorem C4_search_follows_spec (s : VectorStore) (q : String) (k : Int)
    (hk : 0 ≤ k) :
    s.searchDocuments q k = searchSpec s q k
    ∧ (s.searchDocuments q k).length ≤ k.toNat := by
  have hmain : s.searchDocuments q k = searchSpec s q k := by
    rw [searchDocuments_def, searchSpec_def]
    simp only [scoreLoop_eq_specScore]
    rw [filterMap_score, stableSortSpec_eq]
  refine ⟨hmain, ?_⟩
  rw [searchDocuments_def]
  exact pySlice_length_le _ _ hk

/-- C4 witness: the spec's own example query on the demo store. -/
theorem C4_search_follows_spec_witness :
    (0 : Int) ≤ 3
    ∧ (demoStore.searchDocuments "cats dogs" 3 = searchSpec demoStore "cats dogs" 3
      ∧ (demoStore.searchDocuments "cats dogs" 3).length ≤ (3 : Int).toNat) :=
  ⟨by decide, C4_search_follows_spec demoStore "cats dogs" 3 (by decide)⟩

/-- C5 fails as stated for negative `top_k`: `results[:top_k]` is a
Python slice, so `top_k = -1` on a two-match store drops only the last
ranked result and returns one result, not the empty sequence. -/
theorem C5_counterexample :
    ((-1 : Int) ≤ 0)
    ∧ demoStore.searchDocuments "cats" (-1) = [⟨"d1", 1, "cats are great"⟩]
    ∧ demoStore.searchDocuments "cats" (-1) ≠ [] :=
  ⟨by decide, rfl, by decide⟩

/-- C5 (amended): search with an empty query returns the empty sequence,
search with `top_k = 0` returns the empty sequence, and a query matching
no document yields an empty result rather than an error; a negative
`top_k` instead follows Python slice semantics and drops the last
`|top_k|` ranked results. -/
theorem C5_amended_empty_results (s : VectorStore) (q : String) (k : Int)
    (h : ∀ p ∈ s.documents,
      scoreLoop (pySplitWs (pyLower q)) (pyLower p.2) = 0) :
    s.searchDocuments "" k = []
    ∧ s.searchDocuments q 0 = []
    ∧ s.searchDocuments q k = [] := by
  refine ⟨?_, ?_, searchDocuments_eq_nil s q k h⟩
  · exact searchDocuments_eq_nil s "" k (fun p _ => rfl)
  · rw [searchDocuments_def]
    exact pySlice_zero _

/-- C5 witness: a query matching neither demo document. -/
theorem C5_amended_empty_results_witness :
    (∀ p ∈ demoStore.documents,
      scoreLoop (pySplitWs (pyLower "zebra")) (pyLower p.2) = 0)
    ∧ (demoStore.searchDocuments "" 7 = []
      ∧ demoStore.searchDocuments "zebra" 0 = []
      ∧ demoStore.searchDocuments "zebra" 7 = []) :=
  ⟨by decide, C5_amended_empty_results demoStore "zebra" 7 (by decide)⟩

/-- C6: for an id absent from the store, `get`, `get_text`, and
`get_summary` return a not-found signal, and `get_messages` returns the
empty sequence rather than an error. -/
theorem C6_absent_id (s : VectorStore) (id : String)
    (h1 : dictHasKey s.documents id = false)
    (h2 : dictHasKey s.summaries id = false)
    (h3 : dictHasKey s.conversations id = false) :
    s.getDocument id = none
    ∧ s.getDocumentText id = none
    ∧ s.getDocumentSummary id = none
    ∧ s.getConversationHistory id = [] := by
  have g1 := dictGet?_eq_none_of_hasKey_false _ _ h1
  have g2 := dictGet?_eq_none_of_hasKey_false _ _ h2
  have g3 := dictGet?_eq_none_of_hasKey_false _ _ h3
  exact ⟨by simp [VectorStore.getDocument, g1], g1, g2,
    by simp [VectorStore.getConversationHistory, g3]⟩

/-- C6 witness: an id never stored in the fresh store. -/
theorem C6_absent_id_witness :
    (dictHasKey emptyStore.documents "d" = false
      ∧ dictHasKey emptyStore.summaries "d" = false
      ∧ dictHasKey emptyStore.conversations "d" = false)
    ∧ (emptyStore.getDocument "d" = none
      ∧ emptyStore.getDocumentText "d" = none
      ∧ emptyStore.getDocumentSummary "d" = none
      ∧ emptyStore.getConversationHistory "d" = []) :=
  ⟨⟨rfl, rfl, rfl⟩, C6_absent_id emptyStore "d" rfl rfl rfl⟩

/-- C7: two appends land in the ledger in call order with store-assigned
timestamps (the clock at each append), `append_message` returns the
timestamp it assigned, and over every operation sequence each document's
ledger is monotonically non-decreasing in timestamps. -/
theorem C7_append_order_and_timestamps :
    (∀ (s : VectorStore) (id q a : String),
      (((s.addConversationMessage id "user" q).1).addConversationMessage
          id "assistant" a).1.getConversationHistory id
        = s.getConversationHistory id
          ++ [⟨"user", q, s.clock⟩, ⟨"assistant", a, s.clock + 1⟩])
    ∧ (∀ (s : VectorStore) (id r c : String),
        (s.addConversationMessage id r c).2 = some s.clock)
    ∧ (∀ (ops : List StoreOp) (id : String),
        ((runOps ops).getConversationHistory id).Pairwise
          (fun m1 m2 => m1.timestamp ≤ m2.timestamp)) := by
  refine ⟨?_, fun s id r c => rfl,
    fun ops id => (storeInv_runOps ops).sorted id⟩
  intro s id q a
  rw [conv_addMsg_self, conv_addMsg_self, clock_addMsg]
  simp

/-- C8 fails as stated: when the external answerer succeeds but returns
the empty string, the handler's falsy check raises a 500 and appends
nothing, although the external call did not fail. -/
theorem C8_counterexample :
    askQuestion demoStore "d1" "q" (some "") = (demoStore, .httpError 500)
    ∧ (askQuestion demoStore "d1" "q" (some "")).1.getConversationHistory "d1"
        = [] :=
  ⟨rfl, rfl⟩

/-- C8 (amended): on an existing document, a failed external call (`None`)
or an empty answer surfaces a 500 error with the store — hence the
ledger — unchanged, and a non-empty answer appends exactly two messages,
the user question first and the assistant answer second, each with its
own store-assigned timestamp. -/
theorem C8_amended_orchestrator (s : VectorStore) (id q a : String)
    (hdoc : (s.getDocument id).isSome = true) (hne : a ≠ "") :
    askQuestion s id q none = (s, .httpError 500)
    ∧ askQuestion s id q (some "") = (s, .httpError 500)
    ∧ (askQuestion s id q (some a)).2 = .ok a
    ∧ (askQuestion s id q (some a)).1.getConversationHistory id
        = s.getConversationHistory id
          ++ [⟨"user", q, s.clock⟩, ⟨"assistant", a, s.clock + 1⟩] := by
  obtain ⟨d, hd⟩ := Option.isSome_iff_exists.mp hdoc
  refine ⟨by simp [askQuestion, hd], by simp [askQuestion, hd], ?_, ?_⟩
  · simp [askQuestion, hd, hne]
  · simp only [askQuestion, hd]
    rw [if_neg hne, conv_addMsg_self, conv_addMsg_self, clock_addMsg]
    simp

/-- C8 witness: the demo store with a concrete non-empty answer. -/
theorem C8_amended_orchestrator_witness :
    ((demoStore.getDocument "d1").isSome = true ∧ "A" ≠ "")
    ∧ (askQuestion demoStore "d1" "q" none = (demoStore, .httpError 500)
      ∧ askQuestion demoStore "d1" "q" (some "") = (demoStore, .httpError 500)
      ∧ (askQuestion demoStore "d1" "q" (some "A")).2 = .ok "A"
      ∧ (askQuestion demoStore "d1" "q" (some "A")).1.getConversationHistory "d1"
          = demoStore.getConversationHistory "d1"
            ++ [⟨"user", "q", demoStore.clock⟩,
                ⟨"assistant", "A", demoStore.clock + 1⟩]) :=
  ⟨⟨rfl, by decide⟩,
    C8_amended_orchestrator demoStore "d1" "q" "A" rfl (by decide)⟩

/-- C9: summary normalization turns every field into a string; a field
supplied as a list is stored and returned as the comma-space join of the
`str` images of its elements, so authors `["A","B"]` becomes `"A, B"`. -/
theorem C9_normalize_strings (data : List (String × JVal)) (key : String)
    (xs : List JVal) (h : dictGet? data key = some (.arr xs)) :
    (∀ p ∈ normalizeSummaryData data, ∃ sv, p.2 = JVal.str sv)
    ∧ dictGet? (normalizeSummaryData data) key
        = some (.str (joinComma (xs.map pyStr)))
    ∧ normalizeSummaryData [("authors", .arr [.str "A", .str "B"])]
        = [("authors", .str "A, B")] := by
  refine ⟨?_, ?_, rfl⟩
  · intro p hp
    simp only [normalizeSummaryData, List.mem_map] at hp
    obtain ⟨q, _, rfl⟩ := hp
    exact normalizeValue_is_str q.2
  · show dictGet? (data.map (fun p => (p.1, normalizeValue p.2))) key = _
    rw [dictGet?_map_value normalizeValue data key, h]
    rfl

/-- C9 witness: the authors example from the spec. -/
theorem C9_normalize_strings_witness :
    dictGet? [("authors", JVal.arr [.str "A", .str "B"])] "authors"
      = some (.arr [.str "A", .str "B"])
    ∧ ((∀ p ∈ normalizeSummaryData [("authors", JVal.arr [.str "A", .str "B"])],
          ∃ sv, p.2 = JVal.str sv)
      ∧ dictGet? (normalizeSummaryData [("authors", JVal.arr [.str "A", .str "B"])])
          "authors" = some (.str (joinComma ([JVal.str "A", JVal.str "B"].map pyStr)))
      ∧ normalizeSummaryData [("authors", .arr [.str "A", .str "B"])]
          = [("authors", .str "A, B")]) :=
  ⟨rfl, C9_normalize_strings [("authors", JVal.arr [.str "A", .str "B"])]
    "authors" [JVal.str "A", JVal.str "B"] rfl⟩

/-- C10: document existence is decided solely by the text sub-map —
`get` succeeds exactly when the id is in the documents map, returning the
summary and metadata lookups as possibly-absent values instead of
failing, while an id present only in the conversations map is not found
by `get` and contributes nothing to `list` (one list entry per text
entry); illustrated on a hand-built partial state. -/
theorem C10_text_submap_authority (s : VectorStore) (id : String) :
    s.getDocument id = (dictGet? s.documents id).map (fun t =>
      ⟨id, t, dictGet? s.summaries id, dictGet? s.metadata id⟩)
    ∧ (s.getDocument id).isSome = dictHasKey s.documents id
    ∧ s.listDocuments.length = s.documents.length
    ∧ partialStore.getDocument "d" = some ⟨"d", "T", none, none⟩
    ∧ partialStore.getDocument "e" = none
    ∧ partialStore.listDocuments = [[("document_id", .str "d")]] := by
  refine ⟨?_, ?_, ?_, rfl, rfl, rfl⟩
  · cases hg : dictGet? s.documents id <;> simp [VectorStore.getDocument, hg]
  · cases hg : dictGet? s.documents id <;>
      simp [VectorStore.getDocument, hg, dictHasKey]
  · simp [VectorStore.listDocuments]
